import Mathlib

/-!
Verification development for the SEO analyzer pipeline (src/app.py, src/app2.py).

The Python sources are shallowly embedded below: pure helper functions become
Lean functions on `String`/`List`/`ℚ`; the Python `dict` is modelled as an
association list in key-insertion order with last-write-wins values (`pyDict`);
the PostgreSQL intent table is modelled as an association list keyed by the
query text (`storePut`/`storeGet`); the external Gemini classifier is modelled
as an oracle `List String → Option (List (String × String))` where `none`
stands for a raised exception.  String operations model Python semantics on
the ASCII range (lower/upper/strip/split), which covers all strings the
sources manipulate.
-/

namespace SEO

/-- ASCII lower-casing of one character, modelling Python str.lower per char. -/
def asciiLower (c : Char) : Char :=
  match c with
  | 'A' => 'a' | 'B' => 'b' | 'C' => 'c' | 'D' => 'd' | 'E' => 'e' | 'F' => 'f'
  | 'G' => 'g' | 'H' => 'h' | 'I' => 'i' | 'J' => 'j' | 'K' => 'k' | 'L' => 'l'
  | 'M' => 'm' | 'N' => 'n' | 'O' => 'o' | 'P' => 'p' | 'Q' => 'q' | 'R' => 'r'
  | 'S' => 's' | 'T' => 't' | 'U' => 'u' | 'V' => 'v' | 'W' => 'w' | 'X' => 'x'
  | 'Y' => 'y' | 'Z' => 'z'
  | other => other

/-- ASCII upper-casing of one character, modelling Python str.upper per char. -/
def asciiUpper (c : Char) : Char :=
  match c with
  | 'a' => 'A' | 'b' => 'B' | 'c' => 'C' | 'd' => 'D' | 'e' => 'E' | 'f' => 'F'
  | 'g' => 'G' | 'h' => 'H' | 'i' => 'I' | 'j' => 'J' | 'k' => 'K' | 'l' => 'L'
  | 'm' => 'M' | 'n' => 'N' | 'o' => 'O' | 'p' => 'P' | 'q' => 'Q' | 'r' => 'R'
  | 's' => 'S' | 't' => 'T' | 'u' => 'U' | 'v' => 'V' | 'w' => 'W' | 'x' => 'X'
  | 'y' => 'Y' | 'z' => 'Z'
  | other => other

/-- Python s.lower(). -/
def lowerStr (s : String) : String := String.mk (s.data.map asciiLower)

/-- Python s.strip(): drop leading and trailing whitespace. -/
def stripStr (s : String) : String :=
  String.mk (((s.data.dropWhile Char.isWhitespace).reverse.dropWhile Char.isWhitespace).reverse)

/-- Python s.replace("-", ""): remove every hyphen. -/
def removeHyphens (s : String) : String :=
  String.mk (s.data.filter (fun c => decide (¬ c = '-')))

/-- Python s.capitalize(): upper-case the first character, lower-case the rest. -/
def pyCapitalize (s : String) : String :=
  match s.data with
  | [] => s
  | c :: cs => String.mk (asciiUpper c :: cs.map asciiLower)

/-- Whether the second char list starts with the first. -/
def startsList : List Char → List Char → Bool
  | [], _ => true
  | _ :: _, [] => false
  | a :: as, b :: bs => decide (a = b) && startsList as bs

/-- Whether the first char list occurs inside the second (Python needle in hay). -/
def containsList (needle : List Char) : List Char → Bool
  | [] => startsList needle []
  | b :: bs => startsList needle (b :: bs) || containsList needle bs

/-- Python substring test: needle in hay. -/
def containsSub (needle hay : String) : Bool := containsList needle.data hay.data

/-- Lexicographic comparison of char lists by code point, modelling Python str ≤. -/
def listLe : List Char → List Char → Bool
  | [], _ => true
  | _ :: _, [] => false
  | a :: as, b :: bs =>
    if a.toNat < b.toNat then true
    else if b.toNat < a.toNat then false
    else listLe as bs

/-- Python string ≤ on the underlying characters. -/
def strLeBool (a b : String) : Bool := listLe a.data b.data

/-- Split a char list at the first occurrence of sep, modelling
Python s.split(sep, 1) when it yields two parts; none when sep is absent. -/
def splitFirst (sep : Char) : List Char → Option (List Char × List Char)
  | [] => none
  | c :: cs =>
    if c = sep then some ([], cs)
    else (splitFirst sep cs).map (fun p => (c :: p.1, p.2))

/-- Helper for splitLines: accumulate the current line (reversed). -/
def splitLinesAux : List Char → List Char → List String
  | acc, [] => [String.mk acc.reverse]
  | acc, c :: cs =>
    if c = '\n' then String.mk acc.reverse :: splitLinesAux [] cs
    else splitLinesAux (c :: acc) cs

/-- Python s.splitlines() restricted to newline separators.  The sources call
it on an already-stripped string, so the trailing-newline special case of
Python never arises. -/
def splitLines (s : String) : List String := splitLinesAux [] s.data

/-- Value of the last pair carrying the given key, modelling that a later
assignment to a Python dict key wins. -/
def lastVal : List (String × String) → String → Option String
  | [], _ => none
  | (k, v) :: rest, key =>
    match lastVal rest key with
    | some w => some w
    | none => if k = key then some v else none

/-- Keep only the first pair for each key (the seen accumulator holds keys
already emitted). -/
def dedupKeysAux : List String → List (String × String) → List (String × String)
  | _, [] => []
  | seen, (k, v) :: rest =>
    if seen.any (fun s => decide (s = k)) then dedupKeysAux seen rest
    else (k, v) :: dedupKeysAux (k :: seen) rest

/-- A Python dict built from a pair sequence: keys in first-insertion order,
each carrying the value of its last assignment. -/
def pyDict (ps : List (String × String)) : List (String × String) :=
  dedupKeysAux [] (ps.map (fun p => (p.1, (lastVal ps p.1).getD p.2)))

/-- Python dict lookup on a built dict (keys are unique, the first match is
the entry). -/
def lookupDict (d : List (String × String)) (k : String) : Option String :=
  (d.find? (fun p => decide (p.1 = k))).map Prod.snd

/-- Swap every pair, as in the comprehension building the reverse mapping. -/
def swapPairs (d : List (String × String)) : List (String × String) :=
  d.map (fun p => (p.2, p.1))

/-- The reverse mapping of app.py/app2.py: a dict from standard names back to
original header names. -/
def reverseMapping (m : List (String × String)) : List (String × String) :=
  pyDict (swapPairs m)

/-- Python dict.update d with r: entries of r overwrite entries of d. -/
def dictUpdate (d r : List (String × String)) : List (String × String) :=
  pyDict (d ++ r)

/-- The fixed internal schema of app.py, in the order of the source list. -/
def standardHeaders : List String :=
  ["Top queries", "Last 3 months Clicks", "Previous 3 months Clicks",
   "Last 3 months Impressions", "Previous 3 months Impressions",
   "Last 3 months CTR", "Previous 3 months CTR",
   "Last 3 months Position", "Previous 3 months Position"]

/-- app.py positional strategy: dict(zip(original_headers, standard_headers[:len(original_headers)])). -/
def positionalMapping (originals : List String) : List (String × String) :=
  pyDict (originals.zip (standardHeaders.take originals.length))

/-- Stable insertion into a sorted list (insert before the first element the
new one compares ≤ to). -/
def insertBy (le : String → String → Bool) (x : String) : List String → List String
  | [] => [x]
  | y :: ys => if le x y then x :: y :: ys else y :: insertBy le x ys

/-- Stable sort by the given comparison, modelling Python sorted. -/
def sortBy (le : String → String → Bool) (l : List String) : List String :=
  l.foldr (insertBy le) []

/-- app2.py detect_metric_columns: every column whose lower-cased name
contains the lower-cased keyword, sorted by the lower-cased name. -/
def detect_metric_columns (cols : List String) (kw : String) : List String :=
  sortBy (fun a b => strLeBool (lowerStr a) (lowerStr b))
    (cols.filter (fun c => containsSub (lowerStr kw) (lowerStr c)))

/-- app2.py keyword-column candidates. -/
def keywordColCandidates : List String := ["Top queries", "Kueri teratas"]

/-- app2.py: first column that is one of the keyword-column candidates. -/
def findKeywordCol (cols : List String) : Option String :=
  cols.find? (fun c => keywordColCandidates.any (fun cand => decide (cand = c)))

/-- The raw pair sequence of the app2.py column_mapping dict literal, in
source order: for each metric family the sorted second match becomes the
last-period name and the sorted first match the previous-period name. -/
def keywordPairs (c0 c1 i0 i1 t0 t1 p0 p1 kwCol : String) : List (String × String) :=
  [(c1, "Last 3 months Clicks"), (c0, "Previous 3 months Clicks"),
   (i1, "Last 3 months Impressions"), (i0, "Previous 3 months Impressions"),
   (t1, "Last 3 months CTR"), (t0, "Previous 3 months CTR"),
   (p1, "Last 3 months Position"), (p0, "Previous 3 months Position"),
   (kwCol, "Top queries")]

/-- The app2.py column_mapping dict built from the detected family columns. -/
def keywordColumnMapping (c0 c1 i0 i1 t0 t1 p0 p1 kwCol : String) : List (String × String) :=
  pyDict (keywordPairs c0 c1 i0 i1 t0 t1 p0 p1 kwCol)

/-- app2.py schema detection: find the keyword column, detect the four metric
families, require the chained length condition of the source, then build the
column mapping.  An error models st.error followed by st.stop, which halts
before any row processing. -/
def schemaDetect (cols : List String) : Except String (List (String × String)) :=
  match findKeywordCol cols with
  | none => Except.error ("Kolom keyword (Top queries / Kueri teratas) tidak ditemukan.")
  | some kwCol =>
    let clicks := detect_metric_columns cols ("klik")
    let impressions := detect_metric_columns cols ("tayangan")
    let ctr := detect_metric_columns cols ("ctr")
    let position := detect_metric_columns cols ("posisi")
    if ¬ (clicks.length = impressions.length ∧ impressions.length = ctr.length ∧
          ctr.length = position.length ∧ position.length = 2) then
      Except.error ("Jumlah kolom metrik tidak sesuai (Klik, Tayangan, CTR, Posisi harus masing-masing 2).")
    else
      Except.ok (keywordColumnMapping (clicks.getD 0 ("")) (clicks.getD 1 (""))
        (impressions.getD 0 ("")) (impressions.getD 1 (""))
        (ctr.getD 0 ("")) (ctr.getD 1 (""))
        (position.getD 0 ("")) (position.getD 1 ("")) kwCol)

/-- One cleaned row of the working table: the canonical metric columns after
the Metric Cleaner has coerced every cell to a number. -/
structure Record where
  lastClicks : ℚ
  prevClicks : ℚ
  lastImpressions : ℚ
  prevImpressions : ℚ
  lastCtr : ℚ
  prevCtr : ℚ
  lastPosition : ℚ
  prevPosition : ℚ
  deriving DecidableEq

/-- Flag: last CTR fell below 90 percent of the previous CTR. -/
def ctrDrop (r : Record) : Bool :=
  decide (r.lastCtr < r.prevCtr * ((9 : ℚ) / 10))

/-- Flag: low CTR while ranking well with many impressions. -/
def lowCtrHighPosition (r : Record) : Bool :=
  decide (r.lastCtr < (2 : ℚ) / 100) && decide (r.lastPosition < 3) &&
    decide (r.lastImpressions > 5000)

/-- Flag: clicks fell while impressions rose. -/
def clickDownImprUp (r : Record) : Bool :=
  decide (r.lastClicks < r.prevClicks) && decide (r.lastImpressions > r.prevImpressions)

/-- The Needs Optimization column exactly as the single boolean expression of
app.py line 167 and app2.py line 188. -/
def needsOptimization (r : Record) : Bool :=
  decide (r.lastCtr < r.prevCtr * ((9 : ℚ) / 10)) ||
    (decide (r.lastCtr < (2 : ℚ) / 100) && decide (r.lastPosition < 3) &&
      decide (r.lastImpressions > 5000)) ||
    (decide (r.lastClicks < r.prevClicks) && decide (r.lastImpressions > r.prevImpressions))

/-- The maximum of a parsed CTR column as used in the source condition
df[col].max() > 1: for an empty column pandas yields NaN and NaN > 1 is
false, matching the 0 default here. -/
def colMax (col : List ℚ) : ℚ := col.foldr max 0

/-- The CTR normalization rule of app.py lines 165-166 and app2.py lines
182-185: when the column maximum exceeds 1, divide the whole column by 100. -/
def normalizeCTR (col : List ℚ) : List ℚ :=
  if colMax col > 1 then col.map (fun x => x / 100) else col

/-- The rule applied independently to the last-period and previous-period
CTR columns. -/
def normalizeCtrColumns (lastCol prevCol : List ℚ) : List ℚ × List ℚ :=
  (normalizeCTR lastCol, normalizeCTR prevCol)

/-- Parse one classifier response line as in detect_intents_batch: a line
without a colon contributes nothing; otherwise the key is the text before the
first colon with every hyphen removed, stripped and lower-cased, and the
value is the text after the colon, stripped and capitalized. -/
def parseLine (line : String) : Option (String × String) :=
  match splitFirst ':' line.data with
  | none => none
  | some (before, after) =>
    some (lowerStr (stripStr (removeHyphens (String.mk before))),
          pyCapitalize (stripStr (String.mk after)))

/-- The dict comprehension of detect_intents_batch applied to the stripped
response text. -/
def parseResponse (raw : String) : List (String × String) :=
  pyDict ((splitLines (stripStr raw)).filterMap parseLine)

/-- The four-label vocabulary of the specification, in both locales. -/
def intentVocabulary : List String :=
  ["Informasional", "Komersial", "Navigasional", "Transaksional",
   "Informational", "Commercial", "Navigational", "Transactional"]

/-- Fuel-indexed batching helper; the fuel is the list length, enough for any
positive batch size. -/
def chunksAux : Nat → Nat → List String → List (List String)
  | 0, _, _ => []
  | _, _, [] => []
  | fuel + 1, bs, c :: cs => (c :: cs).take bs :: chunksAux fuel bs ((c :: cs).drop bs)

/-- The batches keywords[i:i+batch_size] of the range loop in
detect_all_intents_batched. -/
def chunks (bs : Nat) (l : List String) : List (List String) := chunksAux l.length bs l

/-- The batch loop of detect_all_intents_batched with an explicit trace of the
batches issued to the classifier: on a raised error (call returns none) the
loop breaks and the accumulated dict is returned. -/
def runBatchesTrace (call : List String → Option (List (String × String))) :
    List (List String) → List (String × String) → List (List String) →
    List (String × String) × List (List String)
  | [], acc, issued => (acc, issued)
  | b :: bs, acc, issued =>
    match call b with
    | none => (acc, issued ++ [b])
    | some r => runBatchesTrace call bs (dictUpdate acc r) (issued ++ [b])

/-- detect_all_intents_batched: partition the keywords into batches and run
the loop; the second component records which batches were issued. -/
def detectAllIntentsBatched (call : List String → Option (List (String × String)))
    (bs : Nat) (kws : List String) : List (String × String) × List (List String) :=
  runBatchesTrace call (chunks bs kws) [] []

/-- One row of the session dataframe restricted to the fields the intent
logic touches. -/
structure Row where
  query : String
  intent : String
  deriving DecidableEq

/-- First-occurrence deduplication, modelling pandas Series.unique(). -/
def dedupStrAux : List String → List String → List String
  | _, [] => []
  | seen, x :: xs =>
    if seen.any (fun s => decide (s = x)) then dedupStrAux seen xs
    else x :: dedupStrAux (x :: seen) xs

/-- The keyword list submitted to the classifier: unique queries of the rows
whose intent is Unknown. -/
def unknownKeywords (rows : List Row) : List String :=
  dedupStrAux [] ((rows.filter (fun r => decide (r.intent = "Unknown"))).map Row.query)

/-- The merge of classification results back into the dataset (app.py lines
211-215): join on the lower-cased query and let a present new intent replace
the stored one (combine_first). -/
def applyClassification (rows : List Row) (newIntents : List (String × String)) : List Row :=
  rows.map (fun r =>
    match lookupDict newIntents (lowerStr r.query) with
    | some v => Row.mk r.query v
    | none => r)

/-- A full classification pass: parse the raw response text and merge it. -/
def classificationRun (rows : List Row) (raw : String) : List Row :=
  applyClassification rows (parseResponse raw)

/-- Intent of the row carrying the given query, if any. -/
def lookupIntentByQuery (rows : List Row) (q : String) : Option String :=
  (rows.find? (fun r => decide (r.query = q))).map Row.intent

/-- The changed-row detection of the manual-save handler: merge the original
and edited frames on the keyword column and keep the rows whose intent
differs, as (keyword, edited intent) pairs under the original casing. -/
def manualChanges (orig edited : List Row) : List (String × String) :=
  orig.filterMap (fun r =>
    match lookupIntentByQuery edited r.query with
    | some v => if ¬ r.intent = v then some (r.query, v) else none
    | none => none)

/-- df_state.update(df_changes): overwrite the intent of every row whose
keyword (original casing) appears among the changes. -/
def applyManualChanges (rows : List Row) (changes : List (String × String)) : List Row :=
  rows.map (fun r =>
    match lookupDict changes r.query with
    | some v => Row.mk r.query v
    | none => r)

/-- The persistent intent table: rows (top_query, keyword_intent,
tanggal_data_diupdate) with top_query the primary key. -/
def storePut : List (String × String × Nat) → String → String → Nat →
    List (String × String × Nat)
  | [], k, v, t => [(k, v, t)]
  | e :: s, k, v, t => if e.1 = k then (k, v, t) :: s else e :: storePut s k v t

/-- Read the row with the given primary key. -/
def storeGet (s : List (String × String × Nat)) (k : String) : Option (String × Nat) :=
  (s.find? (fun e => decide (e.1 = k))).map Prod.snd

/-- The filtering of save_to_db: drop rows with a missing intent (dropna),
then drop rows whose intent is the literal Unknown. -/
def saveFilter (records : List (String × Option String)) : List (String × String) :=
  (records.filterMap (fun r => r.2.map (fun v => (r.1, v)))).filter
    (fun p => decide (¬ p.2 = "Unknown"))

/-- save_to_db: filter, return 0 without touching the store when nothing
remains, otherwise upsert every remaining record with the current timestamp
and return how many insert statements were executed. -/
def saveToDb (now : Nat) (records : List (String × Option String))
    (store : List (String × String × Nat)) : List (String × String × Nat) × Nat :=
  let filtered := saveFilter records
  if filtered.isEmpty then (store, 0)
  else (filtered.foldl (fun s p => storePut s p.1 p.2 now) store, filtered.length)

/-- A concrete classifier oracle used by witnesses: succeeds on the batch
containing alpha, raises on everything else. -/
def callW : List String → Option (List (String × String)) :=
  fun b => if b = [("alpha")] then some [(("alpha"), ("Informasional"))] else none

/-- A concrete accepted header row used by witnesses. -/
def colsW : List String :=
  ["Kueri teratas", "Klik A", "Klik B", "Tayangan A", "Tayangan B",
   "CTR A", "CTR B", "Posisi A", "Posisi B"]

/-! Lemmas about the Python-dict model. -/

theorem mem_of_mem_dedupKeysAux {p : String × String} :
    ∀ {seen : List String} {l : List (String × String)}, p ∈ dedupKeysAux seen l → p ∈ l := by
  intro seen l
  induction l generalizing seen with
  | nil => intro h; simp [dedupKeysAux] at h
  | cons q rest ih =>
    intro h
    rcases q with ⟨k, v⟩
    simp only [dedupKeysAux] at h
    split at h
    · exact List.mem_cons_of_mem _ (ih h)
    · rcases List.mem_cons.mp h with h1 | h1
      · subst h1; exact List.mem_cons_self _ _
      · exact List.mem_cons_of_mem _ (ih h1)

theorem lastVal_mem : ∀ {ps : List (String × String)} {k v : String},
    lastVal ps k = some v → (k, v) ∈ ps := by
  intro ps
  induction ps with
  | nil => intro k v h; simp [lastVal] at h
  | cons q rest ih =>
    intro k v h
    rcases q with ⟨k1, v1⟩
    simp only [lastVal] at h
    cases hrest : lastVal rest k with
    | some w =>
      rw [hrest] at h
      simp only [Option.some.injEq] at h
      subst h
      exact List.mem_cons_of_mem _ (ih hrest)
    | none =>
      rw [hrest] at h
      by_cases hk : k1 = k
      · rw [if_pos hk] at h
        simp only [Option.some.injEq] at h
        subst hk; subst h
        exact List.mem_cons_self _ _
      · rw [if_neg hk] at h; simp at h

theorem lastVal_isSome_of_mem {ps : List (String × String)} {k v : String}
    (h : (k, v) ∈ ps) : (lastVal ps k).isSome = true := by
  induction ps with
  | nil => simp at h
  | cons q rest ih =>
    rcases q with ⟨k1, v1⟩
    simp only [lastVal]
    rcases List.mem_cons.mp h with h1 | h1
    · cases hrest : lastVal rest k with
      | some w => simp
      | none =>
        have hk : k1 = k := by injection h1 with h1a h1b; exact h1a.symm
        simp [hk]
    · have := ih h1
      cases hrest : lastVal rest k with
      | some w => simp
      | none => rw [hrest] at this; simp at this

theorem mem_of_mem_pyDict {ps : List (String × String)} {p : String × String}
    (h : p ∈ pyDict ps) : p ∈ ps := by
  have h1 : p ∈ ps.map (fun q => (q.1, (lastVal ps q.1).getD q.2)) :=
    mem_of_mem_dedupKeysAux h
  rcases List.mem_map.mp h1 with ⟨q, hq, hqe⟩
  have hs : (lastVal ps q.1).isSome = true := by
    have : (q.1, q.2) ∈ ps := by simpa using hq
    exact lastVal_isSome_of_mem this
  rcases Option.isSome_iff_exists.mp hs with ⟨w, hw⟩
  rw [hw] at hqe
  simp only [Option.getD_some] at hqe
  subst hqe
  exact lastVal_mem hw

theorem lastVal_eq_none {ps : List (String × String)} {k : String}
    (h : ¬ k ∈ ps.map Prod.fst) : lastVal ps k = none := by
  induction ps with
  | nil => simp [lastVal]
  | cons q rest ih =>
    rcases q with ⟨k1, v1⟩
    simp only [List.map_cons, List.mem_cons] at h
    push_neg at h
    simp only [lastVal, ih h.2]
    rw [if_neg (fun he => h.1 he.symm)]

theorem lastVal_of_nodup {ps : List (String × String)} {k v : String}
    (hn : (ps.map Prod.fst).Nodup) (h : (k, v) ∈ ps) : lastVal ps k = some v := by
  induction ps with
  | nil => simp at h
  | cons q rest ih =>
    rcases q with ⟨k1, v1⟩
    simp only [List.map_cons, List.nodup_cons] at hn
    rcases List.mem_cons.mp h with h1 | h1
    · have hk : k1 = k ∧ v1 = v := by
        constructor
        · injection h1 with a b; exact a.symm
        · injection h1 with a b; exact b.symm
      have hnone : lastVal rest k = none := by
        apply lastVal_eq_none
        rw [← hk.1]; exact hn.1
      simp only [lastVal, hnone]
      rw [if_pos hk.1, hk.2]
    · have := ih hn.2 h1
      simp only [lastVal, this]

theorem dedupKeysAux_keys_nodup :
    ∀ (l : List (String × String)) (seen : List String),
      ((dedupKeysAux seen l).map Prod.fst).Nodup ∧
        ∀ p ∈ dedupKeysAux seen l, ¬ p.1 ∈ seen := by
  intro l
  induction l with
  | nil => intro seen; simp [dedupKeysAux]
  | cons q rest ih =>
    intro seen
    rcases q with ⟨k, v⟩
    simp only [dedupKeysAux]
    split
    · exact ih seen
    · rename_i hany
      have hkseen : ¬ k ∈ seen := by
        intro hk
        exact hany (List.any_eq_true.mpr ⟨k, hk, by simp⟩)
      refine ⟨?_, ?_⟩
      · simp only [List.map_cons, List.nodup_cons]
        refine ⟨?_, (ih (k :: seen)).1⟩
        intro hmem
        rcases List.mem_map.mp hmem with ⟨p, hp, hpe⟩
        have := (ih (k :: seen)).2 p hp
        exact this (by rw [hpe]; exact List.mem_cons_self _ _)
      · intro p hp
        rcases List.mem_cons.mp hp with h1 | h1
        · subst h1; exact hkseen
        · have := (ih (k :: seen)).2 p h1
          intro hcon
          exact this (List.mem_cons_of_mem _ hcon)

theorem pyDict_keys_nodup (ps : List (String × String)) :
    ((pyDict ps).map Prod.fst).Nodup :=
  (dedupKeysAux_keys_nodup _ []).1

theorem dedupKeysAux_eq_self :
    ∀ {l : List (String × String)}, (l.map Prod.fst).Nodup →
      ∀ {seen : List String}, (∀ p ∈ l, ¬ p.1 ∈ seen) → dedupKeysAux seen l = l := by
  intro l
  induction l with
  | nil => intro _ seen _; simp [dedupKeysAux]
  | cons q rest ih =>
    intro hn seen hseen
    rcases q with ⟨k, v⟩
    simp only [List.map_cons, List.nodup_cons] at hn
    have hkseen : ¬ k ∈ seen := hseen (k, v) (List.mem_cons_self _ _)
    have hany : ¬ (seen.any (fun s => decide (s = k)) = true) := by
      intro hc
      rcases List.any_eq_true.mp hc with ⟨s, hs, hse⟩
      simp only [decide_eq_true_eq] at hse
      exact hkseen (hse ▸ hs)
    simp only [dedupKeysAux]
    rw [if_neg hany]
    congr 1
    apply ih hn.2
    intro p hp
    simp only [List.mem_cons, not_or]
    constructor
    · intro he
      exact hn.1 (he ▸ List.mem_map_of_mem Prod.fst hp)
    · exact hseen p (List.mem_cons_of_mem _ hp)

theorem pyDict_eq_self {d : List (String × String)}
    (hn : (d.map Prod.fst).Nodup) : pyDict d = d := by
  unfold pyDict
  have hmap : d.map (fun p => (p.1, (lastVal d p.1).getD p.2)) = d := by
    have : ∀ (l : List (String × String)),
        (∀ p ∈ l, (p.1, (lastVal d p.1).getD p.2) = p) →
          l.map (fun p => (p.1, (lastVal d p.1).getD p.2)) = l := by
      intro l hl
      induction l with
      | nil => simp
      | cons x xs ihx =>
        simp only [List.map_cons]
        rw [hl x (List.mem_cons_self _ _),
          ihx (fun p hp => hl p (List.mem_cons_of_mem _ hp))]
    apply this
    intro p hp
    have : lastVal d p.1 = some p.2 := lastVal_of_nodup hn (by simpa using hp)
    rw [this]
    simp
  rw [hmap]
  exact dedupKeysAux_eq_self hn (by simp)

theorem lookupDict_of_mem_nodup {d : List (String × String)} {k v : String}
    (hn : (d.map Prod.fst).Nodup) (h : (k, v) ∈ d) : lookupDict d k = some v := by
  induction d with
  | nil => simp at h
  | cons q rest ih =>
    rcases q with ⟨k1, v1⟩
    simp only [List.map_cons, List.nodup_cons] at hn
    rcases List.mem_cons.mp h with h1 | h1
    · have hk : k1 = k := by injection h1 with a _; exact a.symm
      have hv : v1 = v := by injection h1 with _ b; exact b.symm
      simp [lookupDict, List.find?, hk, hv]
    · have hk : ¬ k1 = k := by
        intro he
        exact hn.1 (he ▸ List.mem_map_of_mem Prod.fst h1)
      have hd : decide (k1 = k) = false := by simpa using hk
      simp only [lookupDict, List.find?, hd]
      exact ih hn.2 h1

theorem pyDict_snd_nodup {ps : List (String × String)}
    (hv : (ps.map Prod.snd).Nodup) : ((pyDict ps).map Prod.snd).Nodup := by
  have hinj := List.inj_on_of_nodup_map hv
  apply List.Nodup.map_on
  · intro a ha b hb hab
    exact hinj (mem_of_mem_pyDict ha) (mem_of_mem_pyDict hb) hab
  · exact (pyDict_keys_nodup ps).of_map

theorem pyDict_roundTrip {ps : List (String × String)}
    (hv : (ps.map Prod.snd).Nodup) :
    ∀ p ∈ pyDict ps, lookupDict (reverseMapping (pyDict ps)) p.2 = some p.1 := by
  intro p hp
  have hsw : (swapPairs (pyDict ps)).map Prod.fst = (pyDict ps).map Prod.snd := by
    simp [swapPairs]
  have hswn : ((swapPairs (pyDict ps)).map Prod.fst).Nodup := by
    rw [hsw]; exact pyDict_snd_nodup hv
  have heq : reverseMapping (pyDict ps) = swapPairs (pyDict ps) := by
    unfold reverseMapping
    exact pyDict_eq_self hswn
  rw [heq]
  apply lookupDict_of_mem_nodup hswn
  have : (p.2, p.1) ∈ swapPairs (pyDict ps) := by
    unfold swapPairs
    exact List.mem_map.mpr ⟨p, hp, rfl⟩
  exact this

/-! Flag-engine and CTR-normalization lemmas. -/

theorem colMax_le_of_forall {col : List ℚ} {c : ℚ} (h0 : 0 ≤ c)
    (h : ∀ x ∈ col, x ≤ c) : colMax col ≤ c := by
  induction col with
  | nil => simpa [colMax] using h0
  | cons x xs ih =>
    simp only [colMax, List.foldr_cons] at *
    exact max_le (h x (by simp)) (ih (fun y hy => h y (by simp [hy])))

theorem normalizeCTR_max_le {col : List ℚ} (h : ∀ x ∈ col, x ≤ 100) :
    colMax (normalizeCTR col) ≤ 1 := by
  unfold normalizeCTR
  split
  · apply colMax_le_of_forall zero_le_one
    intro x hx
    rcases List.mem_map.mp hx with ⟨y, hy, rfl⟩
    have := h y hy
    linarith
  · rename_i hng
    exact not_lt.mp hng

theorem normalizeCTR_noop {col : List ℚ} (h : colMax col ≤ 1) :
    normalizeCTR col = col := by
  unfold normalizeCTR
  rw [if_neg (not_lt.mpr h)]

/-- Claim C1: for every cleaned record, Needs Optimization equals the OR of
the three sub-flags ctr_drop, low_ctr_high_position and click_down_impr_up,
with the thresholds 0.9, 0.02, 3 and 5000 fixed in the inequalities. -/
theorem claim1_flag_or (r : Record) :
    needsOptimization r = (ctrDrop r || lowCtrHighPosition r || clickDownImprUp r) ∧
    (needsOptimization r = true ↔
      (r.lastCtr < r.prevCtr * ((9 : ℚ) / 10) ∨
        (r.lastCtr < (2 : ℚ) / 100 ∧ r.lastPosition < 3 ∧ r.lastImpressions > 5000) ∨
        (r.lastClicks < r.prevClicks ∧ r.lastImpressions > r.prevImpressions))) := by
  refine ⟨rfl, ?_⟩
  simp only [needsOptimization, Bool.or_eq_true, Bool.and_eq_true, decide_eq_true_eq,
    and_assoc, or_assoc]

/-- Counterexample to claim C3 as stated: a parsed CTR value above 100 (here
150, a malformed percent export) still exceeds 1 after one division by 100,
so a second application of the rule divides again. -/
theorem claim3_cex :
    ¬ normalizeCTR (normalizeCTR [(150 : ℚ)]) = normalizeCTR [(150 : ℚ)] := by
  have hgt : colMax [(150 : ℚ)] > 1 := by
    simp only [colMax, List.foldr_cons, List.foldr_nil]
    rw [gt_iff_lt, lt_sup_iff]
    left; norm_num
  have e1 : normalizeCTR [(150 : ℚ)] = [(150 : ℚ) / 100] := by
    unfold normalizeCTR
    rw [if_pos hgt]
    simp
  have hgt2 : colMax [(150 : ℚ) / 100] > 1 := by
    simp only [colMax, List.foldr_cons, List.foldr_nil]
    rw [gt_iff_lt, lt_sup_iff]
    left; norm_num
  have e2 : normalizeCTR [(150 : ℚ) / 100] = [(150 : ℚ) / 100 / 100] := by
    unfold normalizeCTR
    rw [if_pos hgt2]
    simp
  rw [e1, e2]
  intro hcon
  simp only [List.cons.injEq, and_true] at hcon
  norm_num at hcon

/-- Claim C3, amended: provided every parsed value of a CTR column is at most
100 (the percent-encoded range), one application of the max>1 → divide-by-100
rule brings the column maximum to at most 1 and a second application changes
no value; the rule acts on the two CTR columns independently. -/
theorem claim3_idem_bounded (lastCol prevCol : List ℚ)
    (h1 : ∀ x ∈ lastCol, x ≤ 100) (h2 : ∀ x ∈ prevCol, x ≤ 100) :
    colMax (normalizeCTR lastCol) ≤ 1 ∧ colMax (normalizeCTR prevCol) ≤ 1 ∧
      normalizeCtrColumns (normalizeCtrColumns lastCol prevCol).1
          (normalizeCtrColumns lastCol prevCol).2 =
        normalizeCtrColumns lastCol prevCol := by
  refine ⟨normalizeCTR_max_le h1, normalizeCTR_max_le h2, ?_⟩
  unfold normalizeCtrColumns
  rw [normalizeCTR_noop (normalizeCTR_max_le h1), normalizeCTR_noop (normalizeCTR_max_le h2)]

/-- Witness for claim C3 at a concrete pair of bounded columns. -/
theorem claim3_witness :
    colMax (normalizeCTR [(50 : ℚ)]) ≤ 1 ∧ colMax (normalizeCTR [(1 : ℚ) / 2]) ≤ 1 ∧
      normalizeCtrColumns (normalizeCtrColumns [(50 : ℚ)] [(1 : ℚ) / 2]).1
          (normalizeCtrColumns [(50 : ℚ)] [(1 : ℚ) / 2]).2 =
        normalizeCtrColumns [(50 : ℚ)] [(1 : ℚ) / 2] :=
  claim3_idem_bounded [(50 : ℚ)] [(1 : ℚ) / 2]
    (by intro x hx; rw [List.mem_singleton] at hx; subst hx; norm_num)
    (by intro x hx; rw [List.mem_singleton] at hx; subst hx; norm_num)

theorem zip_map_snd_sublist : ∀ (l1 l2 : List String),
    ((l1.zip l2).map Prod.snd).Sublist l2 := by
  intro l1
  induction l1 with
  | nil => intro l2; simp
  | cons x xs ih =>
    intro l2
    cases l2 with
    | nil => simp
    | cons y ys => simpa using (ih ys).cons₂ y

/-- Claim C4: under both header strategies the stored column mapping
round-trips: for every entry, renaming the original header to its canonical
name and applying the reverse mapping reproduces the original header. -/
theorem claim4_roundtrip :
    (∀ originals : List String, ∀ p ∈ positionalMapping originals,
        lookupDict (reverseMapping (positionalMapping originals)) p.2 = some p.1) ∧
    (∀ c0 c1 i0 i1 t0 t1 p0 p1 kwCol : String,
        ∀ q ∈ keywordColumnMapping c0 c1 i0 i1 t0 t1 p0 p1 kwCol,
          lookupDict (reverseMapping (keywordColumnMapping c0 c1 i0 i1 t0 t1 p0 p1 kwCol)) q.2
            = some q.1) := by
  constructor
  · intro originals p hp
    have hnd : (standardHeaders.take originals.length).Nodup :=
      List.Nodup.sublist (List.take_sublist _ _) (by decide)
    have hv : ((originals.zip (standardHeaders.take originals.length)).map Prod.snd).Nodup :=
      List.Nodup.sublist (zip_map_snd_sublist _ _) hnd
    exact pyDict_roundTrip hv p hp
  · intro c0 c1 i0 i1 t0 t1 p0 p1 kwCol q hq
    have hv : ((keywordPairs c0 c1 i0 i1 t0 t1 p0 p1 kwCol).map Prod.snd).Nodup := by
      simp only [keywordPairs, List.map_cons, List.map_nil]
      decide
    exact pyDict_roundTrip hv q hq

/-- Witness for claim C4: both strategies on the concrete header row colsW. -/
theorem claim4_witness :
    lookupDict (reverseMapping (positionalMapping colsW)) ("Top queries")
        = some ("Kueri teratas") ∧
    lookupDict (reverseMapping (keywordColumnMapping ("Klik A") ("Klik B") ("Tayangan A")
        ("Tayangan B") ("CTR A") ("CTR B") ("Posisi A") ("Posisi B") ("Kueri teratas")))
        ("Top queries") = some ("Kueri teratas") :=
  ⟨claim4_roundtrip.1 colsW (("Kueri teratas"), ("Top queries")) (by decide),
   claim4_roundtrip.2 ("Klik A") ("Klik B") ("Tayangan A") ("Tayangan B") ("CTR A") ("CTR B")
     ("Posisi A") ("Posisi B") ("Kueri teratas")
     (("Kueri teratas"), ("Top queries")) (by decide)⟩

/-- Claim C5: with the keyword column found, the keyword strategy succeeds
exactly when each of the four metric families has exactly two matching
columns, assigning the sorted second match the last-period name and the
sorted first match the previous-period name; any other match count yields the
schema error and no output. -/
theorem claim5_exactly_two (cols : List String) (kwCol : String)
    (hkw : findKeywordCol cols = some kwCol) :
    (((detect_metric_columns cols ("klik")).length = 2 ∧
      (detect_metric_columns cols ("tayangan")).length = 2 ∧
      (detect_metric_columns cols ("ctr")).length = 2 ∧
      (detect_metric_columns cols ("posisi")).length = 2) →
        schemaDetect cols = Except.ok (keywordColumnMapping
          ((detect_metric_columns cols ("klik")).getD 0 (""))
          ((detect_metric_columns cols ("klik")).getD 1 (""))
          ((detect_metric_columns cols ("tayangan")).getD 0 (""))
          ((detect_metric_columns cols ("tayangan")).getD 1 (""))
          ((detect_metric_columns cols ("ctr")).getD 0 (""))
          ((detect_metric_columns cols ("ctr")).getD 1 (""))
          ((detect_metric_columns cols ("posisi")).getD 0 (""))
          ((detect_metric_columns cols ("posisi")).getD 1 ("")) kwCol)) ∧
    (¬ ((detect_metric_columns cols ("klik")).length = 2 ∧
      (detect_metric_columns cols ("tayangan")).length = 2 ∧
      (detect_metric_columns cols ("ctr")).length = 2 ∧
      (detect_metric_columns cols ("posisi")).length = 2) →
        schemaDetect cols = Except.error
          ("Jumlah kolom metrik tidak sesuai (Klik, Tayangan, CTR, Posisi harus masing-masing 2).")) := by
  constructor
  · intro h
    simp only [schemaDetect, hkw]
    rw [if_neg (not_not_intro (by omega))]
  · intro h
    simp only [schemaDetect, hkw]
    rw [if_pos (fun hc => h (by omega))]

/-- Witness for claim C5 on the concrete header row colsW. -/
theorem claim5_witness :
    schemaDetect colsW = Except.ok (keywordColumnMapping ("Klik A") ("Klik B")
      ("Tayangan A") ("Tayangan B") ("CTR A") ("CTR B") ("Posisi A") ("Posisi B")
      ("Kueri teratas")) := by
  have h := (claim5_exactly_two colsW ("Kueri teratas") (by decide)).1 (by decide)
  rw [h]
  congr 1

/-! The batch classification loop. -/

theorem runBatchesTrace_split (call : List String → Option (List (String × String)))
    (pre : List (List String)) (bk : List String) (post : List (List String)) :
    ∀ (acc : List (String × String)) (issued : List (List String)),
      (∀ b ∈ pre, (call b).isSome = true) → call bk = none →
      runBatchesTrace call (pre ++ bk :: post) acc issued
        = (pre.foldl (fun a b => dictUpdate a ((call b).getD [])) acc,
           issued ++ pre ++ [bk]) := by
  induction pre with
  | nil =>
    intro acc issued _ hk
    simp only [List.nil_append, runBatchesTrace, hk, List.foldl_nil, List.append_nil]
  | cons b pre ih =>
    intro acc issued hpre hk
    have hb : (call b).isSome = true := hpre b (List.mem_cons_self _ _)
    rcases Option.isSome_iff_exists.mp hb with ⟨r, hr⟩
    simp only [List.cons_append, runBatchesTrace, hr, List.foldl_cons, List.append_eq]
    rw [ih _ _ (fun x hx => hpre x (List.mem_cons_of_mem _ hx)) hk]
    simp

/-- Claim C2: when the classification call raises on batch k after batches
1..k-1 succeeded, the batched loop returns exactly the union (ordered dict
update) of the mappings of batches 1..k-1, and no batch beyond k is ever
issued to the classifier. -/
theorem claim2_batch_stops (call : List String → Option (List (String × String)))
    (bs : Nat) (kws : List String) (pre : List (List String)) (bk : List String)
    (post : List (List String)) (hsplit : chunks bs kws = pre ++ bk :: post)
    (hpre : ∀ b ∈ pre, (call b).isSome = true) (hk : call bk = none) :
    detectAllIntentsBatched call bs kws
      = (pre.foldl (fun a b => dictUpdate a ((call b).getD [])) [], pre ++ [bk]) := by
  unfold detectAllIntentsBatched
  rw [hsplit, runBatchesTrace_split call pre bk post [] [] hpre hk]
  simp

/-- Witness for claim C2: two singleton batches, the second raising. -/
theorem claim2_witness :
    detectAllIntentsBatched callW 1 [("alpha"), ("beta")]
      = ([(("alpha"), ("Informasional"))], [[("alpha")], [("beta")]]) := by
  have h := claim2_batch_stops callW 1 [("alpha"), ("beta")] [[("alpha")]] [("beta")] []
    (by decide) (by decide) (by decide)
  rw [h]
  decide

/-! Classifier response parsing. -/

theorem parse_shape_aux (raw : String) :
    ∀ p ∈ parseResponse raw, ∃ line ∈ splitLines (stripStr raw),
      ∃ bpart apart, splitFirst ':' line.data = some (bpart, apart) ∧
        p.1 = lowerStr (stripStr (removeHyphens (String.mk bpart))) ∧
        p.2 = pyCapitalize (stripStr (String.mk apart)) := by
  intro p hp
  have h1 : p ∈ (splitLines (stripStr raw)).filterMap parseLine := mem_of_mem_pyDict hp
  rcases List.mem_filterMap.mp h1 with ⟨line, hline, hpl⟩
  refine ⟨line, hline, ?_⟩
  unfold parseLine at hpl
  cases hsf : splitFirst ':' line.data with
  | none => rw [hsf] at hpl; simp at hpl
  | some ba =>
    rcases ba with ⟨bpart, apart⟩
    rw [hsf] at hpl
    simp only [Option.some.injEq] at hpl
    exact ⟨bpart, apart, rfl, by rw [← hpl], by rw [← hpl]⟩

/-- Claim C8, amended: every entry of the parsed mapping comes from a
response line containing a colon; its key is the hyphen-stripped, stripped,
lower-cased text before the first colon and its label the stripped,
capitalized text after it, with no vocabulary check — so an out-of-vocabulary
label on a colon line enters the mapping verbatim (claim8_cex) instead of
being dropped, while a line without a colon contributes nothing. -/
theorem claim8_parse_shape (raw : String) :
    ∀ p ∈ parseResponse raw, ∃ line ∈ splitLines (stripStr raw),
      ∃ bpart apart, splitFirst ':' line.data = some (bpart, apart) ∧
        p.1 = lowerStr (stripStr (removeHyphens (String.mk bpart))) ∧
        p.2 = pyCapitalize (stripStr (String.mk apart)) :=
  parse_shape_aux raw

/-- Counterexample to claim C8 as stated: the response line with label
Banana parses to an entry whose label is outside the four-label vocabulary —
nothing is dropped and nothing is coerced to a valid label. -/
theorem claim8_cex :
    parseResponse ("- foo: Banana") = [(("foo"), ("Banana"))] ∧
      ¬ ("Banana") ∈ intentVocabulary := by
  constructor
  · decide
  · decide

/-- Witness for claim C8 at a concrete in-vocabulary response. -/
theorem claim8_witness :
    ∃ line ∈ splitLines (stripStr ("- a: Informasional")),
      ∃ bpart apart, splitFirst ':' line.data = some (bpart, apart) ∧
        ((("a"), ("Informasional")) : String × String).1
            = lowerStr (stripStr (removeHyphens (String.mk bpart))) ∧
        ((("a"), ("Informasional")) : String × String).2
            = pyCapitalize (stripStr (String.mk apart)) :=
  claim8_parse_shape ("- a: Informasional") (("a"), ("Informasional")) (by decide)

/-! Hyphen handling in parsed keys. -/

theorem mem_of_mem_dropWhileChar {p : Char → Bool} {l : List Char} {a : Char}
    (h : a ∈ l.dropWhile p) : a ∈ l := by
  induction l with
  | nil => simp [List.dropWhile] at h
  | cons x xs ih =>
    rw [List.dropWhile_cons] at h
    split at h
    · exact List.mem_cons_of_mem _ (ih h)
    · exact h

theorem stripStr_data_mem {s : String} {c : Char} (h : c ∈ (stripStr s).data) :
    c ∈ s.data := by
  have h1 : c ∈ ((s.data.dropWhile Char.isWhitespace).reverse.dropWhile
      Char.isWhitespace).reverse := h
  rw [List.mem_reverse] at h1
  have h2 := mem_of_mem_dropWhileChar h1
  rw [List.mem_reverse] at h2
  exact mem_of_mem_dropWhileChar h2

theorem asciiLower_eq_hyphen {c : Char} (h : asciiLower c = '-') : c = '-' := by
  unfold asciiLower at h
  split at h <;> first | exact h | exact absurd h (by decide)

theorem removeHyphens_no_hyphen (s : String) : ¬ '-' ∈ (removeHyphens s).data := by
  intro h
  have h1 : '-' ∈ s.data.filter (fun c => decide (¬ c = '-')) := h
  rcases List.mem_filter.mp h1 with ⟨_, hdec⟩
  simp at hdec

theorem lowerStr_no_hyphen {s : String} (h : ¬ '-' ∈ s.data) :
    ¬ '-' ∈ (lowerStr s).data := by
  intro hc
  have h1 : '-' ∈ s.data.map asciiLower := hc
  rcases List.mem_map.mp h1 with ⟨c, hcm, hce⟩
  have hc2 : c = '-' := asciiLower_eq_hyphen hce
  exact h (hc2 ▸ hcm)

theorem applyClassification_getElem_none {rows : List Row} {parsed : List (String × String)}
    {i : Nat} (h : i < rows.length)
    (hl : lookupDict parsed (lowerStr (rows[i].query)) = none) :
    (applyClassification rows parsed)[i]? = some rows[i] := by
  unfold applyClassification
  rw [List.getElem?_map, List.getElem?_eq_getElem h]
  simp [hl]

theorem applyManualChanges_getElem_some {rows : List Row} {changes : List (String × String)}
    {i : Nat} {v : String} (h : i < rows.length)
    (hl : lookupDict changes (rows[i].query) = some v) :
    (applyManualChanges rows changes)[i]? = some (Row.mk (rows[i].query) v) := by
  unfold applyManualChanges
  rw [List.getElem?_map, List.getElem?_eq_getElem h]
  simp [hl]

/-- Claim C10: every parsed key has its hyphens removed, so for a dataset row
whose keyword contains a hyphen the merge key (the lower-cased keyword, which
keeps its hyphen) can never match a parsed key, and a classification run
leaves that row unchanged. -/
theorem claim10_hyphen_lost (raw : String) (rows : List Row) (i : Nat)
    (h : i < rows.length) (hh : '-' ∈ (rows[i].query).data) :
    (∀ p ∈ parseResponse raw, ¬ '-' ∈ p.1.data) ∧
    lookupDict (parseResponse raw) (lowerStr (rows[i].query)) = none ∧
    (classificationRun rows raw)[i]? = some rows[i] := by
  have hkeys : ∀ p ∈ parseResponse raw, ¬ '-' ∈ p.1.data := by
    intro p hp
    rcases parse_shape_aux raw p hp with ⟨line, hline, bpart, apart, hsf, hkey, hval⟩
    rw [hkey]
    exact lowerStr_no_hyphen (fun hc => removeHyphens_no_hyphen _ (stripStr_data_mem hc))
  have hlow : '-' ∈ (lowerStr (rows[i].query)).data :=
    List.mem_map.mpr ⟨'-', hh, by decide⟩
  have hnone : lookupDict (parseResponse raw) (lowerStr (rows[i].query)) = none := by
    cases hfind : (parseResponse raw).find?
        (fun p => decide (p.1 = lowerStr (rows[i].query))) with
    | none => simp [lookupDict, hfind]
    | some q =>
      have hqmem := List.mem_of_find?_eq_some hfind
      have hqeq : q.1 = lowerStr (rows[i].query) := by
        have hd := List.find?_some hfind
        exact of_decide_eq_true hd
      have hqh : '-' ∈ q.1.data := by rw [hqeq]; exact hlow
      exact absurd hqh (hkeys q hqmem)
  exact ⟨hkeys, hnone, applyClassification_getElem_none h hnone⟩

/-- Witness for claim C10 at the hyphenated keyword t-shirt. -/
theorem claim10_witness :
    lookupDict (parseResponse ("- t-shirt: Komersial")) (lowerStr ("t-shirt")) = none ∧
    (classificationRun [Row.mk ("t-shirt") ("Unknown")] ("- t-shirt: Komersial"))[0]? =
      some (Row.mk ("t-shirt") ("Unknown")) := by
  have h := claim10_hyphen_lost ("- t-shirt: Komersial")
    [Row.mk ("t-shirt") ("Unknown")] 0 (by decide) (by decide)
  exact ⟨h.2.1, h.2.2⟩

/-- Counterexample to claim C7 as stated: the dataset holds an
already-classified row tshirt and an Unknown row t-shirt; only t-shirt is
submitted, yet the parsed key of its response line is tshirt, and the merge
overwrites the already-classified row's label. -/
theorem claim7_cex :
    unknownKeywords [Row.mk ("tshirt") ("Informasional"), Row.mk ("t-shirt") ("Unknown")]
        = [("t-shirt")] ∧
    classificationRun [Row.mk ("tshirt") ("Informasional"), Row.mk ("t-shirt") ("Unknown")]
        ("- t-shirt: Komersial")
      = [Row.mk ("tshirt") ("Komersial"), Row.mk ("t-shirt") ("Unknown")] := by
  constructor
  · decide
  · decide

/-- Claim C7, amended: a classification pass leaves every row untouched whose
lower-cased keyword is not a key of the parsed mapping — which covers every
already-labeled row except when a submitted keyword's normalized key collides
with its keyword, as in claim7_cex — while a manual edit recorded in the
change set overwrites the row's label whatever its prior state. -/
theorem claim7_precedence :
    (∀ (rows : List Row) (parsed : List (String × String)) (i : Nat)
        (h : i < rows.length),
        lookupDict parsed (lowerStr (rows[i].query)) = none →
          (applyClassification rows parsed)[i]? = some rows[i]) ∧
    (∀ (rows : List Row) (changes : List (String × String)) (i : Nat) (v : String)
        (h : i < rows.length),
        lookupDict changes (rows[i].query) = some v →
          (applyManualChanges rows changes)[i]? = some (Row.mk (rows[i].query) v)) :=
  ⟨fun _ _ _ h hl => applyClassification_getElem_none h hl,
   fun _ _ _ _ h hl => applyManualChanges_getElem_some h hl⟩

/-- Witness for claim C7: an already-classified row survives a pass whose
mapping misses it, and a manual change overwrites it. -/
theorem claim7_witness :
    (applyClassification [Row.mk ("sepatu") ("Komersial")]
        [(("tas"), ("Informasional"))])[0]? = some (Row.mk ("sepatu") ("Komersial")) ∧
    (applyManualChanges [Row.mk ("sepatu") ("Komersial")]
        [(("sepatu"), ("Navigasional"))])[0]? = some (Row.mk ("sepatu") ("Navigasional")) := by
  refine ⟨?_, ?_⟩
  · exact claim7_precedence.1 [Row.mk ("sepatu") ("Komersial")]
      [(("tas"), ("Informasional"))] 0 (by decide) (by decide)
  · exact claim7_precedence.2 [Row.mk ("sepatu") ("Komersial")]
      [(("sepatu"), ("Navigasional"))] 0 ("Navigasional") (by decide) (by decide)

/-! The persistent intent store. -/

theorem storeGet_put (s : List (String × String × Nat)) (k1 v1 : String) (t : Nat)
    (k : String) :
    storeGet (storePut s k1 v1 t) k = if k1 = k then some (v1, t) else storeGet s k := by
  induction s with
  | nil =>
    by_cases hk : k1 = k
    · rw [if_pos hk]
      simp [storePut, storeGet, List.find?, hk]
    · rw [if_neg hk]
      have hd : decide (k1 = k) = false := by simpa using hk
      simp [storePut, storeGet, List.find?, hd]
  | cons e s ih =>
    rcases e with ⟨ke, ve, te⟩
    simp only [storePut]
    by_cases he : ke = k1
    · rw [if_pos he]
      by_cases hk : k1 = k
      · rw [if_pos hk]
        simp [storeGet, List.find?, hk]
      · rw [if_neg hk]
        have hd : decide (k1 = k) = false := by simpa using hk
        have hd2 : decide (ke = k) = false := by
          subst he; simpa using hk
        simp [storeGet, List.find?, hd, hd2]
    · rw [if_neg he]
      by_cases hek : ke = k
      · have hk : ¬ k1 = k := fun hc => he (by rw [hc, hek])
        rw [if_neg hk]
        simp [storeGet, List.find?, hek]
      · have hd2 : decide (ke = k) = false := by simpa using hek
        simp only [storeGet, List.find?, hd2]
        exact ih

theorem storeGet_foldPut (now : Nat) :
    ∀ (l : List (String × String)) (s : List (String × String × Nat)) (k : String),
      storeGet (l.foldl (fun acc p => storePut acc p.1 p.2 now) s) k
        = match lastVal l k with
          | some v => some (v, now)
          | none => storeGet s k := by
  intro l
  induction l with
  | nil => intro s k; simp [lastVal]
  | cons p rest ih =>
    intro s k
    rcases p with ⟨kp, vp⟩
    simp only [List.foldl_cons]
    rw [ih]
    simp only [lastVal]
    cases hrest : lastVal rest k with
    | some w => simp
    | none =>
      simp only
      rw [storeGet_put]
      by_cases hk : kp = k
      · rw [if_pos hk, if_pos hk]
      · rw [if_neg hk, if_neg hk]

/-- Counterexample to claim C9 as stated: a record whose intent is the empty
string is not skipped — it is written to the store and counted. -/
theorem claim9_cex :
    (saveToDb 7 [(("foo"), some (""))] []).2 = 1 ∧
    storeGet (saveToDb 7 [(("foo"), some (""))] []).1 ("foo") = some ((""), 7) := by
  constructor
  · decide
  · decide

/-- Claim C9, amended: save_to_db skips exactly the records whose intent is
missing or the literal Unknown — an empty-string intent is not skipped
(claim9_cex) — writes the remaining records with per-key last-write-wins
semantics and the refreshed timestamp, returns the count of executed writes,
and performs no write at all (returning 0) when every record is skipped. -/
theorem claim9_upsert_semantics (now : Nat) (records : List (String × Option String))
    (store : List (String × String × Nat)) :
    (∀ p : String × String, p ∈ saveFilter records ↔
        ((p.1, some p.2) ∈ records ∧ ¬ p.2 = "Unknown")) ∧
    (saveToDb now records store).2 = (saveFilter records).length ∧
    (saveFilter records = [] → (saveToDb now records store).1 = store) ∧
    (∀ k v, lastVal (saveFilter records) k = some v →
        storeGet (saveToDb now records store).1 k = some (v, now)) ∧
    (∀ k, lastVal (saveFilter records) k = none →
        storeGet (saveToDb now records store).1 k = storeGet store k) := by
  refine ⟨?_, ?_, ?_, ?_, ?_⟩
  · intro p
    simp only [saveFilter, List.mem_filter, List.mem_filterMap, decide_eq_true_eq]
    constructor
    · rintro ⟨⟨r, hr, hre⟩, hu⟩
      rcases r with ⟨rk, ro⟩
      cases ro with
      | none => simp at hre
      | some rv =>
        simp only [Option.map_some', Option.some.injEq] at hre
        subst hre
        exact ⟨hr, hu⟩
    · rintro ⟨hmem, hu⟩
      exact ⟨⟨(p.1, some p.2), hmem, rfl⟩, hu⟩
  · simp only [saveToDb]
    by_cases he : (saveFilter records).isEmpty
    · rw [if_pos he]
      rw [List.isEmpty_iff] at he
      simp [he]
    · rw [if_neg he]
  · intro hnil
    simp only [saveToDb]
    rw [if_pos (by rw [List.isEmpty_iff]; exact hnil)]
  · intro k v hlast
    have hne : ¬ (saveFilter records).isEmpty = true := by
      intro he
      rw [List.isEmpty_iff] at he
      rw [he] at hlast
      simp [lastVal] at hlast
    simp only [saveToDb]
    rw [if_neg hne]
    rw [storeGet_foldPut now (saveFilter records) store k, hlast]
  · intro k hlast
    simp only [saveToDb]
    by_cases he : (saveFilter records).isEmpty
    · rw [if_pos he]
    · rw [if_neg he]
      rw [storeGet_foldPut now (saveFilter records) store k, hlast]

/-- Witness for claim C9: one good record, one missing-intent record and one
Unknown record; the good one is persisted with its timestamp, the Unknown one
leaves the store untouched. -/
theorem claim9_witness :
    storeGet (saveToDb 3 [(("a"), some ("Komersial")), (("b"), none),
        (("c"), some ("Unknown"))] []).1 ("a") = some (("Komersial"), 3) ∧
    storeGet (saveToDb 3 [(("a"), some ("Komersial")), (("b"), none),
        (("c"), some ("Unknown"))] []).1 ("c") = storeGet [] ("c") := by
  refine ⟨?_, ?_⟩
  · exact (claim9_upsert_semantics 3 [(("a"), some ("Komersial")), (("b"), none),
      (("c"), some ("Unknown"))] []).2.2.2.1 ("a") ("Komersial") (by decide)
  · exact (claim9_upsert_semantics 3 [(("a"), some ("Komersial")), (("b"), none),
      (("c"), some ("Unknown"))] []).2.2.2.2 ("c") (by decide)

/-- Claim C6 at the failing input: manually editing the keyword iPhone makes
the change set carry the original-cased keyword, so the persisted record's
key is iPhone, and no record exists under the case-folded key iphone —
persistence in the manual-edit path is keyed on original casing, not on the
case-folded keyword. -/
theorem claim6_manual_save_original_case :
    manualChanges [Row.mk ("iPhone") ("Unknown")] [Row.mk ("iPhone") ("Komersial")]
        = [(("iPhone"), ("Komersial"))] ∧
    storeGet (saveToDb 5 ((manualChanges [Row.mk ("iPhone") ("Unknown")]
        [Row.mk ("iPhone") ("Komersial")]).map (fun p => (p.1, some p.2))) []).1 ("iPhone")
      = some (("Komersial"), 5) ∧
    storeGet (saveToDb 5 ((manualChanges [Row.mk ("iPhone") ("Unknown")]
        [Row.mk ("iPhone") ("Komersial")]).map (fun p => (p.1, some p.2))) []).1
        (lowerStr ("iPhone"))
      = none := by
  refine ⟨?_, ?_, ?_⟩ <;> decide

end SEO
